import Mathlib

/-!
Verification development for the trace-collection and metrics-aggregation
pipeline of the kvcache measurement repository.  Python functions from
`src/trace_collector` are shallowly embedded as executable Lean definitions;
the theorems at the end of the file settle the specification claims.
-/

/-! ### Match entries and the match-rate aggregators

Embedding of `matrix_report._compute_rates` and `compare_chart._compute_hit_rates`.
A `MatchRange` is one element of the `Matches` array of a match JSONL line
(`MatchStart`/`MatchEnd`, half-open); a `MatchEntry` is one line
(`InputLen` plus its matches).  Token indices read from JSON are modelled as
integers (the report aggregator defensively clamps them); the input length is
a token count, modelled as a natural number.
-/

/-- One matched token range of a match-file line: `-lb MatchStart, MatchEnd-rb`. -/
structure MatchRange where
  MatchStart : Int
  MatchEnd : Int
  deriving DecidableEq, Repr

/-- One line of an analyzer match file: token length of the call input and
the matched token ranges. -/
structure MatchEntry where
  InputLen : Nat
  Matches : List MatchRange
  deriving DecidableEq, Repr

/-- The aggregate statistics dictionary returned by both aggregators. -/
structure AggregateRates where
  count : Nat
  avgTokens : Rat
  prefixRate : Rat
  substringRate : Rat
  gapRate : Rat
  deriving DecidableEq, Repr

/-- `range(a, b)` over integers, as Python's `range(start, end)` used to fill
the `matched_tokens` set. -/
def intRange (a b : Int) : List Int :=
  (List.range (b - a).toNat).map (fun (i : Nat) => a + (i : Int))

/-- The clamped range `(max(0, m.MatchStart), min(input_len, m.MatchEnd))`
computed by `_compute_rates`. -/
def clampRange (inputLen : Nat) (m : MatchRange) : Int × Int :=
  (max 0 m.MatchStart, min (inputLen : Int) m.MatchEnd)

/-- The unclamped range `(m.MatchStart, m.MatchEnd)` used by `_compute_hit_rates`. -/
def rawRange (m : MatchRange) : Int × Int :=
  (m.MatchStart, m.MatchEnd)

/-- Stable insertion into a list sorted by first component, matching
Python's `sorted(..., key=lambda x: x[0])`. -/
def insertByFst (x : Int × Int) : List (Int × Int) → List (Int × Int)
  | [] => [x]
  | y :: ys => if x.1 ≤ y.1 then x :: y :: ys else y :: insertByFst x ys

/-- Stable sort by first component (insertion sort). -/
def sortByFst : List (Int × Int) → List (Int × Int)
  | [] => []
  | x :: xs => insertByFst x (sortByFst xs)

/-- The greedy prefix loop of both aggregators: starting from
`prefix_end = 0`, extend the covered-through boundary while the next range's
start is `≤` the boundary, and stop at the first gap. -/
def prefixEndLoop : Int → List (Int × Int) → Int
  | pe, [] => pe
  | pe, (s, e) :: rest => if s ≤ pe then prefixEndLoop (max pe e) rest else pe

/-- Tokens the report aggregator adds to `total_substring_matched` for one
entry: the cardinality of the union of the clamped ranges (Python builds a
`set` and takes its `len`). -/
def entrySubstringMatched (e : MatchEntry) : Nat :=
  if e.InputLen = 0 ∨ e.Matches = [] then 0
  else (((e.Matches.map (clampRange e.InputLen)).map
      (fun p => intRange p.1 p.2)).flatten).dedup.length

/-- Tokens the report aggregator adds to `total_prefix_matched` for one
entry: the greedy prefix boundary over the clamped ranges sorted by start. -/
def entryPrefixMatched (e : MatchEntry) : Int :=
  if e.InputLen = 0 ∨ e.Matches = [] then 0
  else prefixEndLoop 0 (sortByFst (e.Matches.map (clampRange e.InputLen)))

/-- `total_input_tokens` accumulated over all entries. -/
def totalInputTokens (es : List MatchEntry) : Nat :=
  (es.map (fun e => e.InputLen)).sum

/-- `total_substring_matched` accumulated over all entries (report version). -/
def totalSubstringMatched (es : List MatchEntry) : Nat :=
  (es.map entrySubstringMatched).sum

/-- `total_prefix_matched` accumulated over all entries (report version). -/
def totalPrefixMatched (es : List MatchEntry) : Int :=
  (es.map entryPrefixMatched).sum

/-- `matrix_report._compute_rates`: pooled prefix/substring/gap rates.
Zero total input tokens or zero entries yields the all-zero dictionary with
the entry count preserved. -/
def compute_rates (es : List MatchEntry) : AggregateRates :=
  if totalInputTokens es = 0 ∨ es.length = 0 then
    ⟨es.length, 0, 0, 0, 0⟩
  else
    ⟨es.length,
     (totalInputTokens es : Rat) / (es.length : Rat),
     (totalPrefixMatched es : Rat) / (totalInputTokens es : Rat),
     (totalSubstringMatched es : Rat) / (totalInputTokens es : Rat),
     (totalSubstringMatched es : Rat) / (totalInputTokens es : Rat)
       - (totalPrefixMatched es : Rat) / (totalInputTokens es : Rat)⟩

/-- Substring tokens for one entry in `compare_chart._compute_hit_rates`
(no clamping of the ranges). -/
def chartEntrySubstringMatched (e : MatchEntry) : Nat :=
  if e.InputLen = 0 ∨ e.Matches = [] then 0
  else (((e.Matches.map rawRange).map
      (fun p => intRange p.1 p.2)).flatten).dedup.length

/-- Prefix tokens for one entry in `compare_chart._compute_hit_rates`
(no clamping of the ranges). -/
def chartEntryPrefixMatched (e : MatchEntry) : Int :=
  if e.InputLen = 0 ∨ e.Matches = [] then 0
  else prefixEndLoop 0 (sortByFst (e.Matches.map rawRange))

/-- Chart-aggregator total of substring-matched tokens. -/
def chartTotalSubstringMatched (es : List MatchEntry) : Nat :=
  (es.map chartEntrySubstringMatched).sum

/-- Chart-aggregator total of prefix-matched tokens. -/
def chartTotalPrefixMatched (es : List MatchEntry) : Int :=
  (es.map chartEntryPrefixMatched).sum

/-- `compare_chart._compute_hit_rates`: same pooled rates; its degenerate
branch fires only on zero total input tokens and reports `count = 0`. -/
def compute_hit_rates (es : List MatchEntry) : AggregateRates :=
  if totalInputTokens es = 0 then
    ⟨0, 0, 0, 0, 0⟩
  else
    ⟨es.length,
     (totalInputTokens es : Rat) / (es.length : Rat),
     (chartTotalPrefixMatched es : Rat) / (totalInputTokens es : Rat),
     (chartTotalSubstringMatched es : Rat) / (totalInputTokens es : Rat),
     (chartTotalSubstringMatched es : Rat) / (totalInputTokens es : Rat)
       - (chartTotalPrefixMatched es : Rat) / (totalInputTokens es : Rat)⟩

/-! ### Percentile computation

Embedding of `matrix_report._percentile`: linear-interpolation percentile over
the sorted duration list.  Float durations are modelled as rationals. -/

/-- The comparison used to sort rational durations, matching Python `sorted`. -/
def ratLeB : Rat → Rat → Bool := fun a b => decide (a ≤ b)

/-- Stable insertion for insertion sort with a boolean comparison. -/
def insertLe {α : Type} (le : α → α → Bool) (x : α) : List α → List α
  | [] => [x]
  | y :: ys => if le x y then x :: y :: ys else y :: insertLe le x ys

/-- Stable insertion sort, the model of Python's `sorted(values)`. -/
def sortLe {α : Type} (le : α → α → Bool) : List α → List α
  | [] => []
  | x :: xs => insertLe le x (sortLe le xs)

/-- The interpolation rank `max(0.0, min(1.0, p)) * (len(sorted_values) - 1)`. -/
def percRank (values : List Rat) (p : Rat) : Rat :=
  max 0 (min 1 p) * (((sortLe ratLeB values).length : Rat) - 1)

/-- `matrix_report._percentile`: `0.0` on the empty list, the sole element on a
singleton, otherwise linear interpolation between the floor and ceiling ranks
of the sorted list. -/
def percentile (values : List Rat) (p : Rat) : Rat :=
  if values = [] then 0
  else if (sortLe ratLeB values).length = 1 then (sortLe ratLeB values).getD 0 0
  else if (⌊percRank values p⌋).toNat = (⌈percRank values p⌉).toNat then
    (sortLe ratLeB values).getD (⌊percRank values p⌋).toNat 0
  else
    (sortLe ratLeB values).getD (⌊percRank values p⌋).toNat 0
        * (1 - (percRank values p - ((⌊percRank values p⌋).toNat : Rat)))
      + (sortLe ratLeB values).getD (⌈percRank values p⌉).toNat 0
        * (percRank values p - ((⌊percRank values p⌋).toNat : Rat))

/-- The linear-interpolation formula stated by the specification: with
`r = clamp(p, 0, 1) * (n - 1)`, the value
`sorted[floor(r)] + (r - floor(r)) * (sorted[ceil(r)] - sorted[floor(r)])`. -/
def percentileSpecFormula (values : List Rat) (p : Rat) : Rat :=
  (sortLe ratLeB values).getD (⌊percRank values p⌋).toNat 0
    + (percRank values p - ((⌊percRank values p⌋ : Int) : Rat))
      * ((sortLe ratLeB values).getD (⌈percRank values p⌉).toNat 0
         - (sortLe ratLeB values).getD (⌊percRank values p⌋).toNat 0)

/-! ### Cypher query normalization, classification and hashing

Embedding of `neo4j_metrics._normalize_query_text`, `classify_cypher_query`
and `cypher_hash` (the latter includes a full SHA-1 implementation over the
UTF-8 bytes of the normalized text, matching `hashlib.sha1`). -/

/-- The whitespace characters recognized by Python's `str.split()` with no
arguments: space, tab, newline, carriage return, vertical tab, form feed. -/
def isPySpace (c : Char) : Bool :=
  c = ' ' || c = '\t' || c = '\n' || c = '\r' || c = Char.ofNat 11 || c = Char.ofNat 12

/-- Helper for `str.split()`: split a character list on whitespace runs,
dropping empty chunks; `cur` holds the current word reversed. -/
def splitWsAux : List Char → List Char → List (List Char)
  | [], cur => if cur.isEmpty then [] else [cur.reverse]
  | c :: cs, cur =>
      if isPySpace c then
        if cur.isEmpty then splitWsAux cs [] else cur.reverse :: splitWsAux cs []
      else splitWsAux cs (c :: cur)

/-- Python's `query.split()`: whitespace-run splitting with empties dropped. -/
def pySplitWs (s : String) : List String :=
  (splitWsAux s.toList []).map (fun w => String.mk w)

/-- `_normalize_query_text`: `" ".join(query.strip().split())`, i.e. collapse
every whitespace run to a single space and trim the ends. -/
def normalize_query_text (q : String) : String :=
  String.intercalate " " (pySplitWs q)

/-- ASCII lowercasing, the model of Python `str.lower()` on query text. -/
def lowerString (s : String) : String :=
  String.mk (s.toList.map Char.toLower)

/-- Boolean substring containment on character lists. -/
def listIsInfix (pat : List Char) : List Char → Bool
  | [] => pat.isEmpty
  | c :: cs => pat.isPrefixOf (c :: cs) || listIsInfix pat cs

/-- Python's `pat in s` substring test. -/
def strContains (s pat : String) : Bool :=
  listIsInfix pat.toList s.toList

/-- Python's `s.startswith(pat)`. -/
def strStartsWith (s pat : String) : Bool :=
  pat.toList.isPrefixOf s.toList

/-- The local `q` of `classify_cypher_query`: normalized, lowercased text. -/
def qnorm (query : String) : String :=
  lowerString (normalize_query_text query)

/-- The index/constraint DDL guard of `classify_cypher_query`. -/
def isIndexingGuard (q : String) : Bool :=
  strContains q "create index" || strContains q "drop index" ||
  strContains q "show indexes" || strContains q "create constraint" ||
  strContains q "drop constraint"

/-- The vector-similarity / full-text search guard of `classify_cypher_query`. -/
def isSearchGuard (q : String) : Bool :=
  strContains q "vector.similarity" || strContains q "db.index.fulltext.query" ||
  strContains q "vector.querynodes"

/-- The mutating-statement guard of `classify_cypher_query`. -/
def isWriteGuard (q : String) : Bool :=
  strStartsWith q "merge" || strStartsWith q "create" ||
  strStartsWith q "delete" || strStartsWith q "set"

/-- The read-statement guard of `classify_cypher_query`. -/
def isReadGuard (q : String) : Bool :=
  strStartsWith q "match" || strStartsWith q "with match" || strContains q " return "

/-- `neo4j_metrics.classify_cypher_query`: case-insensitive first-match
classification of normalized query text. -/
def classify_cypher_query (query : String) : String :=
  if qnorm query = "" then "unknown"
  else if isIndexingGuard (qnorm query) then "indexing"
  else if isSearchGuard (qnorm query) then "search"
  else if isWriteGuard (qnorm query) then "write"
  else if isReadGuard (qnorm query) then "read"
  else "other"

/-- UTF-8 encoding of one character as a list of byte values. -/
def charUtf8 (c : Char) : List Nat :=
  if c.toNat < 128 then [c.toNat]
  else if c.toNat < 2048 then [192 + c.toNat / 64, 128 + c.toNat % 64]
  else if c.toNat < 65536 then
    [224 + c.toNat / 4096, 128 + (c.toNat / 64) % 64, 128 + c.toNat % 64]
  else
    [240 + c.toNat / 262144, 128 + (c.toNat / 4096) % 64,
     128 + (c.toNat / 64) % 64, 128 + c.toNat % 64]

/-- UTF-8 byte sequence of a string (the input to the SHA-1 digest). -/
def utf8Bytes (s : String) : List Nat :=
  (s.toList.map charUtf8).flatten

/-- SHA-1 message padding: append `0x80`, zero bytes to 56 mod 64, then the
64-bit big-endian bit length. -/
def sha1Pad (m : List Nat) : List Nat :=
  m ++ [128] ++ List.replicate ((64 - ((m.length + 9) % 64)) % 64) 0 ++
    (List.range 8).map (fun i => (8 * m.length / 2 ^ (8 * (7 - i))) % 256)

/-- Group bytes into big-endian 32-bit words. -/
def bytesToWords : List Nat → List Nat
  | b0 :: b1 :: b2 :: b3 :: rest => (((b0 * 256 + b1) * 256 + b2) * 256 + b3) :: bytesToWords rest
  | _ => []

/-- Split a word list into 16-word blocks. -/
def chunk16 : List Nat → List (List Nat)
  | [] => []
  | w :: rest => ((w :: rest).take 16) :: chunk16 ((w :: rest).drop 16)
termination_by l => l.length
decreasing_by simp [List.length_drop]; omega

/-- Left rotation of a 32-bit word represented as a natural number. -/
def rotl32 (n x : Nat) : Nat :=
  (x * 2 ^ n + x / 2 ^ (32 - n)) % 2 ^ 32

/-- The SHA-1 round function `f_t`. -/
def sha1F (t b c d : Nat) : Nat :=
  if t < 20 then (b &&& c) ||| ((b ^^^ 4294967295) &&& d)
  else if t < 40 then b ^^^ c ^^^ d
  else if t < 60 then (b &&& c) ||| (b &&& d) ||| (c &&& d)
  else b ^^^ c ^^^ d

/-- The SHA-1 round constant `K_t`. -/
def sha1K (t : Nat) : Nat :=
  if t < 20 then 1518500249
  else if t < 40 then 1859775393
  else if t < 60 then 2400959708
  else 3395469782

/-- Extend a 16-word block to the 80-word message schedule. -/
def sha1Schedule (block : List Nat) : List Nat :=
  (List.range 64).foldl
    (fun acc i =>
      acc ++ [rotl32 1 (acc.getD (i + 13) 0 ^^^ acc.getD (i + 8) 0 ^^^
                        acc.getD (i + 2) 0 ^^^ acc.getD i 0)])
    block

/-- One SHA-1 compression step on the running state `(a, b, c, d, e)`. -/
def sha1Step (w : List Nat) (st : Nat × Nat × Nat × Nat × Nat) (t : Nat) :
    Nat × Nat × Nat × Nat × Nat :=
  (((rotl32 5 st.1 + sha1F t st.2.1 st.2.2.1 st.2.2.2.1 + st.2.2.2.2 +
      sha1K t + w.getD t 0) % 2 ^ 32),
   st.1, rotl32 30 st.2.1, st.2.2.1, st.2.2.2.1)

/-- Process one 16-word block, updating the five hash registers. -/
def sha1Block (h : Nat × Nat × Nat × Nat × Nat) (block : List Nat) :
    Nat × Nat × Nat × Nat × Nat :=
  ((h.1 + ((List.range 80).foldl (sha1Step (sha1Schedule block)) h).1) % 2 ^ 32,
   (h.2.1 + ((List.range 80).foldl (sha1Step (sha1Schedule block)) h).2.1) % 2 ^ 32,
   (h.2.2.1 + ((List.range 80).foldl (sha1Step (sha1Schedule block)) h).2.2.1) % 2 ^ 32,
   (h.2.2.2.1 + ((List.range 80).foldl (sha1Step (sha1Schedule block)) h).2.2.2.1) % 2 ^ 32,
   (h.2.2.2.2 + ((List.range 80).foldl (sha1Step (sha1Schedule block)) h).2.2.2.2) % 2 ^ 32)

/-- Lowercase hexadecimal digit for a value below 16. -/
def hexDigitChar (n : Nat) : Char :=
  "0123456789abcdef".toList.getD n '0'

/-- Eight-digit lowercase hex rendering of a 32-bit word. -/
def hexWord (x : Nat) : List Char :=
  (List.range 8).map (fun i => hexDigitChar ((x / 16 ^ (7 - i)) % 16))

/-- `hashlib.sha1(...).hexdigest()` over the UTF-8 bytes of a string. -/
def sha1Hex (s : String) : String :=
  String.mk
    (hexWord ((chunk16 (bytesToWords (sha1Pad (utf8Bytes s)))).foldl sha1Block
        (1732584193, 4023233417, 2562383102, 271733878, 3285377520)).1 ++
     hexWord ((chunk16 (bytesToWords (sha1Pad (utf8Bytes s)))).foldl sha1Block
        (1732584193, 4023233417, 2562383102, 271733878, 3285377520)).2.1 ++
     hexWord ((chunk16 (bytesToWords (sha1Pad (utf8Bytes s)))).foldl sha1Block
        (1732584193, 4023233417, 2562383102, 271733878, 3285377520)).2.2.1 ++
     hexWord ((chunk16 (bytesToWords (sha1Pad (utf8Bytes s)))).foldl sha1Block
        (1732584193, 4023233417, 2562383102, 271733878, 3285377520)).2.2.2.1 ++
     hexWord ((chunk16 (bytesToWords (sha1Pad (utf8Bytes s)))).foldl sha1Block
        (1732584193, 4023233417, 2562383102, 271733878, 3285377520)).2.2.2.2)

/-- `neo4j_metrics.cypher_hash`: the first 12 hex digits of the SHA-1 digest
of the normalized query text. -/
def cypher_hash (query : String) : String :=
  (sha1Hex (normalize_query_text query)).take 12

/-! ### Tool-call output extraction

Embedding of the response-to-output-text logic shared by
`openai_base_collector.collect`, `tau2_collector.traced_completion` and
`mem0_collector._make_callback`: serialize each tool call as
`json.dumps` of its name and arguments and join with newlines; otherwise use
the plain message content.  `call_type` metadata takes the first tool call's
name (tau2 and mem0 collectors). -/

/-- The `function` object of an OpenAI-style tool call. -/
structure ToolFunction where
  name : String
  arguments : String
  deriving DecidableEq, Repr

/-- One tool call in a chat-completion message. -/
structure ToolCall where
  function : ToolFunction
  deriving DecidableEq, Repr

/-- The relevant part of `response.choices[0].message`: optional text content
and the tool-call list (absent/empty both modelled as `[]`). -/
structure ChatMessage where
  content : Option String
  tool_calls : List ToolCall
  deriving DecidableEq, Repr

/-- One `\uXXXX` escape as produced by `json.dumps` with `ensure_ascii`. -/
def u16Escape (n : Nat) : List Char :=
  ['\\', 'u', hexDigitChar (n / 4096 % 16), hexDigitChar (n / 256 % 16),
   hexDigitChar (n / 16 % 16), hexDigitChar (n % 16)]

/-- `json.dumps` escaping of one character (default `ensure_ascii=True`). -/
def jsonEscapeChar (c : Char) : List Char :=
  if c = '"' then ['\\', '"']
  else if c = '\\' then ['\\', '\\']
  else if c = '\n' then ['\\', 'n']
  else if c = '\r' then ['\\', 'r']
  else if c = '\t' then ['\\', 't']
  else if c.toNat = 8 then ['\\', 'b']
  else if c.toNat = 12 then ['\\', 'f']
  else if 32 ≤ c.toNat ∧ c.toNat ≤ 126 then [c]
  else if c.toNat < 65536 then u16Escape c.toNat
  else u16Escape (55296 + (c.toNat - 65536) / 1024) ++
       u16Escape (56320 + (c.toNat - 65536) % 1024)

/-- `json.dumps` of a Python string. -/
def jsonQuote (s : String) : String :=
  String.mk ('"' :: ((s.toList.map jsonEscapeChar).flatten ++ ['"']))

/-- `json.dumps(-lb "name": tc.function.name, "arguments": tc.function.arguments -rb)`
with the default separators. -/
def serializeToolCall (tc : ToolCall) : String :=
  "\x7b\"name\": " ++ jsonQuote tc.function.name ++
  ", \"arguments\": " ++ jsonQuote tc.function.arguments ++ "\x7d"

/-- The `output_text` recorded in the TraceRecord for one intercepted
chat-completion response. -/
def extractOutputText (msg : ChatMessage) : String :=
  match msg.tool_calls with
  | [] =>
      match msg.content with
      | some c => c
      | none => ""
  | tc :: rest => String.intercalate "\n" ((tc :: rest).map serializeToolCall)

/-- The `call_type` metadata value: the first tool call's function name when
the tool-call path was taken. -/
def extractCallType (msg : ChatMessage) : Option String :=
  match msg.tool_calls with
  | [] => none
  | tc :: _ => some tc.function.name

/-- A response message carrying two distinct tool calls, as returned by a
model that invokes several tools in one turn. -/
def twoToolCallMsg : ChatMessage :=
  ⟨none, [⟨⟨"search_flights", "\x7b\"origin\": \"SFO\"\x7d"⟩⟩,
          ⟨⟨"book_ticket", "\x7b\"id\": 7\x7d"⟩⟩]⟩

/-! ### Scoped patch/restore of the Neo4j driver entry points

Embedding of `neo4j_metrics.patch_neo4j_calls`.  The four process-global
method slots patched by the context manager are modelled as a record of
slot values; the protected body is a state transformer that may also raise
(`Except.error`).  The `finally` block writes the originals captured on entry
back into all four slots on every exit path. -/

/-- The four patched entry points of the neo4j library:
`Driver.execute_query`, `AsyncDriver.execute_query`, `Session.run`,
`AsyncSession.run`. -/
structure Neo4jSlots (α : Type) where
  driverExecuteQuery : α
  asyncDriverExecuteQuery : α
  sessionRun : α
  asyncSessionRun : α
  deriving DecidableEq, Repr

/-- `patch_neo4j_calls`: with no logger, yield immediately without touching
the slots; with a logger, capture the originals, install the traced wrappers,
run the body, and unconditionally restore the originals in `finally`,
propagating the body's outcome. -/
def patch_neo4j_calls {α β ε L : Type} (logger : Option L)
    (traced : Neo4jSlots α)
    (body : Neo4jSlots α → Neo4jSlots α × Except ε β)
    (s : Neo4jSlots α) : Neo4jSlots α × Except ε β :=
  match logger with
  | none => body s
  | some _ =>
      (⟨s.driverExecuteQuery, s.asyncDriverExecuteQuery,
        s.sessionRun, s.asyncSessionRun⟩,
       (body ⟨traced.driverExecuteQuery, traced.asyncDriverExecuteQuery,
              traced.sessionRun, traced.asyncSessionRun⟩).2)

/-! ### Matrix orchestrator

Embedding of the `run_matrix.main` loop: per-dataset loading, per-baseline
cell execution with skip-existing short-circuit, error recording, and the
final exit status.  The dataset loader, the baseline runners and the
output-file existence check are the external collaborators, passed as
functions; the second component of each result tracks which
`(baseline, dataset)` collector invocations actually happened. -/

/-- One row of the orchestrator's result table. -/
structure MatrixCell where
  dataset : String
  baseline : String
  status : String
  deriving DecidableEq, Repr

/-- One matrix cell body: skip when `--skip-existing` is set and the trace
file exists, otherwise invoke the baseline collector and record `ok` or
`error`. -/
def runMatrixCell (runner : String → String → List String → Except String String)
    (skipExisting : Bool) (outputExists : String → String → Bool)
    (dataset baseline : String) (rows : List String) :
    MatrixCell × List (String × String) :=
  if skipExisting && outputExists baseline dataset then
    (⟨dataset, baseline, "skipped"⟩, [])
  else
    match runner baseline dataset rows with
    | Except.ok _ => (⟨dataset, baseline, "ok"⟩, [(baseline, dataset)])
    | Except.error _ => (⟨dataset, baseline, "error"⟩, [(baseline, dataset)])

/-- Processing of one dataset: a loader failure records an `error` cell for
every selected baseline and invokes nothing; otherwise every baseline cell is
run in order. -/
def processDataset (loader : String → Except String (List String))
    (runner : String → String → List String → Except String String)
    (skipExisting : Bool) (outputExists : String → String → Bool)
    (baselines : List String) (dataset : String) :
    List MatrixCell × List (String × String) :=
  match loader dataset with
  | Except.error _ => (baselines.map (fun b => ⟨dataset, b, "error"⟩), [])
  | Except.ok rows =>
      baselines.foldr
        (fun b acc =>
          ((runMatrixCell runner skipExisting outputExists dataset b rows).1 :: acc.1,
           (runMatrixCell runner skipExisting outputExists dataset b rows).2 ++ acc.2))
        ([], [])

/-- The full matrix loop over the selected datasets. -/
def runMatrix (loader : String → Except String (List String))
    (runner : String → String → List String → Except String String)
    (skipExisting : Bool) (outputExists : String → String → Bool)
    (baselines : List String) : List String → List MatrixCell × List (String × String)
  | [] => ([], [])
  | d :: rest =>
      ((processDataset loader runner skipExisting outputExists baselines d).1 ++
         (runMatrix loader runner skipExisting outputExists baselines rest).1,
       (processDataset loader runner skipExisting outputExists baselines d).2 ++
         (runMatrix loader runner skipExisting outputExists baselines rest).2)

/-- The orchestrator's exit status: `sys.exit(1)` when any cell recorded
status `error`, otherwise a normal exit `0`. -/
def matrixExitCode (cells : List MatrixCell) : Nat :=
  if cells.any (fun c => c.status = "error") then 1 else 0

/-- The union of a list of half-open integer ranges, as a finite set (the
mathematical meaning of the Python `matched_tokens` set). -/
def rangesUnion (l : List (Int × Int)) : Finset Int :=
  l.foldr (fun p acc => Finset.Ico p.1 p.2 ∪ acc) ∅

/-! ## Supporting lemmas -/

theorem mem_intRange {a b t : Int} : t ∈ intRange a b ↔ a ≤ t ∧ t < b := by
  simp only [intRange, List.mem_map, List.mem_range]
  constructor
  · rintro ⟨i, hi, rfl⟩
    omega
  · rintro ⟨h1, h2⟩
    exact ⟨(t - a).toNat, by omega, by omega⟩

theorem mem_insertByFst {x y : Int × Int} {l : List (Int × Int)} :
    y ∈ insertByFst x l ↔ y = x ∨ y ∈ l := by
  induction l with
  | nil => simp [insertByFst]
  | cons z zs ih =>
      simp only [insertByFst]
      by_cases h : x.1 ≤ z.1
      · simp [h, List.mem_cons]
      · simp only [h, if_false, List.mem_cons, ih]
        tauto

theorem mem_sortByFst {y : Int × Int} {l : List (Int × Int)} :
    y ∈ sortByFst l ↔ y ∈ l := by
  induction l with
  | nil => simp [sortByFst]
  | cons z zs ih =>
      simp only [sortByFst, mem_insertByFst, ih, List.mem_cons]

theorem mem_rangesUnion {t : Int} {l : List (Int × Int)} :
    t ∈ rangesUnion l ↔ ∃ p ∈ l, p.1 ≤ t ∧ t < p.2 := by
  induction l with
  | nil => simp [rangesUnion]
  | cons z zs ih =>
      simp only [rangesUnion, List.foldr_cons, Finset.mem_union, Finset.mem_Ico,
        List.mem_cons] at *
      constructor
      · rintro (h | h)
        · exact ⟨z, Or.inl rfl, h⟩
        · obtain ⟨p, hp, hpt⟩ := ih.mp h
          exact ⟨p, Or.inr hp, hpt⟩
      · rintro ⟨p, (rfl | hp), hpt⟩
        · exact Or.inl hpt
        · exact Or.inr (ih.mpr ⟨p, hp, hpt⟩)

theorem rangesUnion_sortByFst (l : List (Int × Int)) :
    rangesUnion (sortByFst l) = rangesUnion l := by
  ext t
  simp only [mem_rangesUnion]
  constructor
  · rintro ⟨p, hp, hpt⟩
    exact ⟨p, mem_sortByFst.mp hp, hpt⟩
  · rintro ⟨p, hp, hpt⟩
    exact ⟨p, mem_sortByFst.mpr hp, hpt⟩

theorem dedup_flatten_card (l : List (Int × Int)) :
    ((l.map (fun p => intRange p.1 p.2)).flatten).dedup.length = (rangesUnion l).card := by
  rw [← List.card_toFinset]
  congr 1
  ext t
  simp only [List.mem_toFinset, List.mem_flatten, List.mem_map, mem_rangesUnion]
  constructor
  · rintro ⟨w, ⟨p, hp, rfl⟩, hw⟩
    exact ⟨p, hp, mem_intRange.mp hw⟩
  · rintro ⟨p, hp, hpt⟩
    exact ⟨intRange p.1 p.2, ⟨p, hp, rfl⟩, mem_intRange.mpr hpt⟩

theorem prefixEndLoop_ge : ∀ (l : List (Int × Int)) (pe : Int), pe ≤ prefixEndLoop pe l
  | [], pe => le_refl pe
  | (s, e) :: rest, pe => by
      simp only [prefixEndLoop]
      by_cases h : s ≤ pe
      · simp only [h, if_true]
        exact le_trans (le_max_left pe e) (prefixEndLoop_ge rest (max pe e))
      · simp [h]

theorem prefixEndLoop_cover : ∀ (l : List (Int × Int)) (pe t : Int),
    t < prefixEndLoop pe l → t < pe ∨ ∃ p ∈ l, p.1 ≤ t ∧ t < p.2
  | [], pe, t => by
      intro h
      exact Or.inl h
  | (s, e) :: rest, pe, t => by
      simp only [prefixEndLoop]
      by_cases h : s ≤ pe
      · simp only [h, if_true]
        intro ht
        rcases prefixEndLoop_cover rest (max pe e) t ht with hlt | ⟨p, hp, hpt⟩
        · rcases lt_max_iff.mp hlt with h1 | h1
          · exact Or.inl h1
          · by_cases h2 : t < pe
            · exact Or.inl h2
            · exact Or.inr ⟨(s, e), List.mem_cons_self _ _, by push_neg at h2; omega, h1⟩
        · exact Or.inr ⟨p, List.mem_cons_of_mem _ hp, hpt⟩
      · simp only [h, if_false]
        intro ht
        exact Or.inl ht

theorem entryPrefix_le_entrySubstring (e : MatchEntry) :
    entryPrefixMatched e ≤ (entrySubstringMatched e : Int) := by
  by_cases hg : e.InputLen = 0 ∨ e.Matches = []
  · simp [entryPrefixMatched, entrySubstringMatched, hg]
  · simp only [entryPrefixMatched, entrySubstringMatched, hg, if_false]
    set L := e.Matches.map (clampRange e.InputLen) with hL
    set pe := prefixEndLoop 0 (sortByFst L) with hpe
    have hpe0 : 0 ≤ pe := prefixEndLoop_ge _ 0
    have hsub : Finset.Ico (0 : Int) pe ⊆ rangesUnion L := by
      intro t ht
      rw [Finset.mem_Ico] at ht
      rcases prefixEndLoop_cover (sortByFst L) 0 t ht.2 with h0 | ⟨p, hp, hpt⟩
      · omega
      · exact mem_rangesUnion.mpr ⟨p, mem_sortByFst.mp hp, hpt⟩
    have hcard := Finset.card_le_card hsub
    rw [Int.card_Ico, sub_zero] at hcard
    rw [dedup_flatten_card L]
    omega

theorem totalPrefix_le_totalSubstring (es : List MatchEntry) :
    totalPrefixMatched es ≤ (totalSubstringMatched es : Int) := by
  induction es with
  | nil => simp [totalPrefixMatched, totalSubstringMatched]
  | cons e rest ih =>
      simp only [totalPrefixMatched, totalSubstringMatched, List.map_cons,
        List.sum_cons] at *
      push_cast
      push_cast at ih
      exact add_le_add (entryPrefix_le_entrySubstring e) ih

theorem insertLe_length {α : Type} (le : α → α → Bool) (x : α) :
    ∀ l : List α, (insertLe le x l).length = l.length + 1
  | [] => rfl
  | y :: ys => by
      simp only [insertLe]
      by_cases h : le x y
      · simp [h]
      · simp [h, insertLe_length le x ys]

theorem sortLe_length {α : Type} (le : α → α → Bool) :
    ∀ l : List α, (sortLe le l).length = l.length
  | [] => rfl
  | x :: xs => by
      simp [sortLe, insertLe_length, sortLe_length le xs]

/-! ## Claim theorems -/

/-- C1: the match-rate aggregator, applied to the two-entry input
`[InputLen 10 with matches (0,3), (2,5), (7,9); InputLen 8 with match (2,4)]`,
returns count 2, average input tokens 9, prefix rate 5/18, substring rate
9/18 and gap 4/18. -/
theorem compute_rates_two_entry_example :
    compute_rates [⟨10, [⟨0, 3⟩, ⟨2, 5⟩, ⟨7, 9⟩]⟩, ⟨8, [⟨2, 4⟩]⟩]
      = ⟨2, 9, 5 / 18, 9 / 18, 4 / 18⟩ := by
  have h1 : totalInputTokens [⟨10, [⟨0, 3⟩, ⟨2, 5⟩, ⟨7, 9⟩]⟩, ⟨8, [⟨2, 4⟩]⟩] = 18 := by decide
  have h2 : totalPrefixMatched [⟨10, [⟨0, 3⟩, ⟨2, 5⟩, ⟨7, 9⟩]⟩, ⟨8, [⟨2, 4⟩]⟩] = 5 := by decide
  have h3 : totalSubstringMatched [⟨10, [⟨0, 3⟩, ⟨2, 5⟩, ⟨7, 9⟩]⟩, ⟨8, [⟨2, 4⟩]⟩] = 9 := by decide
  simp only [compute_rates, h1, h2, h3, List.length_cons, List.length_nil]
  norm_num [AggregateRates.mk.injEq]

/-- C2: for every sequence of match entries the pooled prefix rate is at most
the substring rate, the returned gap is exactly their difference, and the gap
is nonnegative. -/
theorem compute_rates_prefix_le_substring (es : List MatchEntry) :
    (compute_rates es).prefixRate ≤ (compute_rates es).substringRate
    ∧ (compute_rates es).gapRate
        = (compute_rates es).substringRate - (compute_rates es).prefixRate
    ∧ 0 ≤ (compute_rates es).gapRate := by
  unfold compute_rates
  split_ifs with hg
  · simp
  · push_neg at hg
    dsimp only
    have hT : (0 : Rat) < (totalInputTokens es : Rat) := by
      exact_mod_cast Nat.pos_of_ne_zero hg.1
    have hps : (totalPrefixMatched es : Rat) ≤ (totalSubstringMatched es : Rat) := by
      exact_mod_cast totalPrefix_le_totalSubstring es
    have hdiv : (totalPrefixMatched es : Rat) / (totalInputTokens es : Rat)
        ≤ (totalSubstringMatched es : Rat) / (totalInputTokens es : Rat) := by
      gcongr
    exact ⟨hdiv, rfl, by linarith⟩

/-- C5: a match entry with `InputLen = 0` contributes zero to the pooled
input-token, substring-matched and prefix-matched totals, and aggregation over
a sequence with zero total input tokens (the empty sequence included) returns
all-zero prefix, substring and gap rates instead of a division error. -/
theorem compute_rates_zero_input_safe :
    (∀ (e : MatchEntry) (es : List MatchEntry), e.InputLen = 0 →
        totalInputTokens (e :: es) = totalInputTokens es
        ∧ totalSubstringMatched (e :: es) = totalSubstringMatched es
        ∧ totalPrefixMatched (e :: es) = totalPrefixMatched es)
    ∧ ∀ es : List MatchEntry, totalInputTokens es = 0 →
        compute_rates es = ⟨es.length, 0, 0, 0, 0⟩ := by
  constructor
  · intro e es he
    refine ⟨?_, ?_, ?_⟩
    · simp [totalInputTokens, he]
    · simp [totalSubstringMatched, entrySubstringMatched, he]
    · simp [totalPrefixMatched, entryPrefixMatched, he]
  · intro es hz
    unfold compute_rates
    rw [if_pos (Or.inl hz)]

/-- Closed-instance witness for `compute_rates_zero_input_safe`. -/
theorem compute_rates_zero_input_safe_witness :
    (totalInputTokens [(⟨0, [⟨1, 3⟩]⟩ : MatchEntry)] = totalInputTokens []
      ∧ totalSubstringMatched [(⟨0, [⟨1, 3⟩]⟩ : MatchEntry)] = totalSubstringMatched []
      ∧ totalPrefixMatched [(⟨0, [⟨1, 3⟩]⟩ : MatchEntry)] = totalPrefixMatched [])
    ∧ compute_rates [(⟨0, [⟨1, 3⟩]⟩ : MatchEntry), ⟨0, []⟩] = ⟨2, 0, 0, 0, 0⟩ :=
  ⟨compute_rates_zero_input_safe.1 ⟨0, [⟨1, 3⟩]⟩ [] rfl,
   compute_rates_zero_input_safe.2 [⟨0, [⟨1, 3⟩]⟩, ⟨0, []⟩] (by decide)⟩

theorem entry_matched_eq_chart (e : MatchEntry)
    (h : ∀ m ∈ e.Matches, 0 ≤ m.MatchStart ∧ m.MatchStart ≤ m.MatchEnd
        ∧ m.MatchEnd ≤ (e.InputLen : Int)) :
    entrySubstringMatched e = chartEntrySubstringMatched e
    ∧ entryPrefixMatched e = chartEntryPrefixMatched e := by
  have hmap : e.Matches.map (clampRange e.InputLen) = e.Matches.map rawRange := by
    apply List.map_congr_left
    intro m hm
    obtain ⟨h1, h2, h3⟩ := h m hm
    simp [clampRange, rawRange, max_eq_right h1, min_eq_right h3]
  constructor
  · unfold entrySubstringMatched chartEntrySubstringMatched
    rw [hmap]
  · unfold entryPrefixMatched chartEntryPrefixMatched
    rw [hmap]

/-- C10: on well-formed match files (every range inside `[0, InputLen]` and at
least one entry with nonzero input length), the report aggregator
`_compute_rates` and the chart aggregator `_compute_hit_rates` return
identical count, average-token and rate values. -/
theorem compute_rates_eq_compute_hit_rates (es : List MatchEntry)
    (hb : ∀ e ∈ es, ∀ m ∈ e.Matches, 0 ≤ m.MatchStart ∧ m.MatchStart ≤ m.MatchEnd
        ∧ m.MatchEnd ≤ (e.InputLen : Int))
    (hnz : ∃ e ∈ es, e.InputLen ≠ 0) :
    compute_rates es = compute_hit_rates es := by
  obtain ⟨e0, he0, h0⟩ := hnz
  have hsub : totalSubstringMatched es = chartTotalSubstringMatched es := by
    unfold totalSubstringMatched chartTotalSubstringMatched
    exact congrArg List.sum
      (List.map_congr_left (fun e he => (entry_matched_eq_chart e (hb e he)).1))
  have hpre : totalPrefixMatched es = chartTotalPrefixMatched es := by
    unfold totalPrefixMatched chartTotalPrefixMatched
    exact congrArg List.sum
      (List.map_congr_left (fun e he => (entry_matched_eq_chart e (hb e he)).2))
  have hT : totalInputTokens es ≠ 0 := by
    intro hzero
    apply h0
    have hle : e0.InputLen ≤ totalInputTokens es :=
      List.single_le_sum (fun x _ => Nat.zero_le x) _
        (List.mem_map_of_mem (fun e => e.InputLen) he0)
    omega
  have hlen : es.length ≠ 0 := by
    intro hl
    rw [List.length_eq_zero] at hl
    subst hl
    exact absurd he0 (List.not_mem_nil e0)
  unfold compute_rates compute_hit_rates
  rw [if_neg (by push_neg; exact ⟨hT, hlen⟩), if_neg hT, hsub, hpre]

/-- Closed-instance witness for `compute_rates_eq_compute_hit_rates`. -/
theorem compute_rates_eq_compute_hit_rates_witness :
    compute_rates [⟨10, [⟨0, 3⟩, ⟨2, 5⟩, ⟨7, 9⟩]⟩, ⟨8, [⟨2, 4⟩]⟩]
      = compute_hit_rates [⟨10, [⟨0, 3⟩, ⟨2, 5⟩, ⟨7, 9⟩]⟩, ⟨8, [⟨2, 4⟩]⟩] :=
  compute_rates_eq_compute_hit_rates _ (by decide) ⟨⟨10, [⟨0, 3⟩, ⟨2, 5⟩, ⟨7, 9⟩]⟩,
    by decide, by decide⟩

/-- C4: `classify_cypher_query` applies its case-insensitive rules in priority
order on the whitespace-normalized, lowercased text: empty text is `unknown`;
index/constraint DDL is `indexing`; vector-similarity / full-text search calls
are `search`; statements starting with MERGE, CREATE, DELETE or SET are
`write`; statements starting with MATCH or containing a RETURN clause are
`read`. -/
theorem classify_cypher_query_rules (query : String) :
    (qnorm query = "" → classify_cypher_query query = "unknown")
    ∧ (isIndexingGuard (qnorm query) = true → classify_cypher_query query = "indexing")
    ∧ (isIndexingGuard (qnorm query) = false → isSearchGuard (qnorm query) = true →
        classify_cypher_query query = "search")
    ∧ (isIndexingGuard (qnorm query) = false → isSearchGuard (qnorm query) = false →
        isWriteGuard (qnorm query) = true → classify_cypher_query query = "write")
    ∧ (isIndexingGuard (qnorm query) = false → isSearchGuard (qnorm query) = false →
        isWriteGuard (qnorm query) = false →
        (strStartsWith (qnorm query) "match" = true
          ∨ strContains (qnorm query) " return " = true) →
        classify_cypher_query query = "read") := by
  refine ⟨?_, ?_, ?_, ?_, ?_⟩ <;> unfold classify_cypher_query
  · intro h
    rw [if_pos h]
  · intro h
    by_cases he : qnorm query = ""
    · rw [he] at h
      exact absurd h (by decide)
    · rw [if_neg he, if_pos h]
  · intro h1 h2
    by_cases he : qnorm query = ""
    · rw [he] at h2
      exact absurd h2 (by decide)
    · rw [if_neg he, if_neg (by simp [h1]), if_pos h2]
  · intro h1 h2 h3
    by_cases he : qnorm query = ""
    · rw [he] at h3
      exact absurd h3 (by decide)
    · rw [if_neg he, if_neg (by simp [h1]), if_neg (by simp [h2]), if_pos h3]
  · intro h1 h2 h3 h4
    have hr : isReadGuard (qnorm query) = true := by
      rcases h4 with h | h <;> simp [isReadGuard, h]
    by_cases he : qnorm query = ""
    · rw [he] at h4
      rcases h4 with h | h
      · exact absurd h (by decide)
      · exact absurd h (by decide)
    · rw [if_neg he, if_neg (by simp [h1]), if_neg (by simp [h2]),
        if_neg (by simp [h3]), if_pos hr]

/-- Closed-instance witness for `classify_cypher_query_rules`. -/
theorem classify_cypher_query_rules_witness :
    classify_cypher_query "MERGE (n:Person) RETURN n" = "write" :=
  (classify_cypher_query_rules "MERGE (n:Person) RETURN n").2.2.2.1
    (by decide) (by decide) (by decide)

/-- C8: `cypher_hash` is invariant under whitespace normalization — any two
query strings that agree after collapsing whitespace runs to single spaces and
trimming the ends receive the same 12-character digest. -/
theorem cypher_hash_whitespace_invariant (q1 q2 : String)
    (h : normalize_query_text q1 = normalize_query_text q2) :
    cypher_hash q1 = cypher_hash q2 := by
  unfold cypher_hash
  rw [h]

/-- Closed-instance witness for `cypher_hash_whitespace_invariant`. -/
theorem cypher_hash_whitespace_invariant_witness :
    normalize_query_text "MATCH (n)\n\tRETURN   n"
      = normalize_query_text "  MATCH (n) RETURN n "
    ∧ cypher_hash "MATCH (n)\n\tRETURN   n" = cypher_hash "  MATCH (n) RETURN n " :=
  ⟨by decide, cypher_hash_whitespace_invariant _ _ (by decide)⟩

/-- C3 counterexample: a response message with two tool calls records the
newline-joined serialization of both calls, which differs from the
serialization of the first call alone. -/
theorem trace_output_two_tool_calls_counterexample :
    extractOutputText twoToolCallMsg
      = serializeToolCall ⟨⟨"search_flights", "\x7b\"origin\": \"SFO\"\x7d"⟩⟩ ++ "\n" ++
        serializeToolCall ⟨⟨"book_ticket", "\x7b\"id\": 7\x7d"⟩⟩
    ∧ extractOutputText twoToolCallMsg
      ≠ serializeToolCall ⟨⟨"search_flights", "\x7b\"origin\": \"SFO\"\x7d"⟩⟩ := by
  constructor
  · decide
  · decide

/-- C3 (amended): for every intercepted response whose message carries tool
calls, the recorded output text is the newline-joined serialization of ALL
tool calls in order, and only the `call_type` metadata records the first tool
call's name. -/
theorem trace_output_all_tool_calls (msg : ChatMessage) (h : msg.tool_calls ≠ []) :
    extractOutputText msg = String.intercalate "\n" (msg.tool_calls.map serializeToolCall)
    ∧ extractCallType msg = msg.tool_calls.head?.map (fun tc => tc.function.name) := by
  cases hm : msg.tool_calls with
  | nil => exact absurd hm h
  | cons tc rest =>
      unfold extractOutputText extractCallType
      rw [hm]
      exact ⟨rfl, rfl⟩

/-- Closed-instance witness for `trace_output_all_tool_calls`. -/
theorem trace_output_all_tool_calls_witness :
    extractOutputText twoToolCallMsg
      = String.intercalate "\n" (twoToolCallMsg.tool_calls.map serializeToolCall)
    ∧ extractCallType twoToolCallMsg
      = twoToolCallMsg.tool_calls.head?.map (fun tc => tc.function.name) :=
  trace_output_all_tool_calls twoToolCallMsg (by decide)

/-- C7: with a logger, `patch_neo4j_calls` restores all four patched entry
points to the originals captured on entry on every exit path — the body's
normal result and its raised exception both propagate with the slots restored;
with no logger the wrapper is the identity and never modifies the slots. -/
theorem patch_neo4j_calls_restores {α β ε L : Type}
    (l : L) (traced : Neo4jSlots α)
    (body : Neo4jSlots α → Neo4jSlots α × Except ε β) (s : Neo4jSlots α) :
    ((patch_neo4j_calls (some l) traced body s).1 = s
      ∧ (patch_neo4j_calls (some l) traced body s).2 = (body traced).2)
    ∧ patch_neo4j_calls (none : Option L) traced body s = body s :=
  ⟨⟨rfl, rfl⟩, rfl⟩

/-- Closed-instance witness for `patch_neo4j_calls_restores`: a body that
scrambles every slot and raises still leaves the original slots restored. -/
theorem patch_neo4j_calls_restores_witness :
    (patch_neo4j_calls (some ()) (⟨1, 2, 3, 4⟩ : Neo4jSlots Nat)
        (fun st => (⟨st.driverExecuteQuery + 10, 0, 0, 0⟩,
          (Except.error "query failed" : Except String Nat)))
        ⟨5, 6, 7, 8⟩).1 = ⟨5, 6, 7, 8⟩ :=
  ((patch_neo4j_calls_restores () ⟨1, 2, 3, 4⟩
      (fun st => (⟨st.driverExecuteQuery + 10, 0, 0, 0⟩,
        (Except.error "query failed" : Except String Nat)))
      ⟨5, 6, 7, 8⟩).1).1

/-- C6: when the dataset loader raises, the orchestrator records an `error`
cell for every selected baseline of that dataset, invokes no baseline
collector for it, continues with the remaining datasets, and the process exit
status is nonzero exactly when some cell has status `error`. -/
theorem run_matrix_loader_error_cells
    (loader : String → Except String (List String))
    (runner : String → String → List String → Except String String)
    (skipExisting : Bool) (outputExists : String → String → Bool)
    (baselines : List String) (d : String) (rest : List String) (msg : String)
    (h : loader d = Except.error msg) :
    (processDataset loader runner skipExisting outputExists baselines d).1
        = baselines.map (fun b => ⟨d, b, "error"⟩)
    ∧ (processDataset loader runner skipExisting outputExists baselines d).2 = []
    ∧ runMatrix loader runner skipExisting outputExists baselines (d :: rest)
        = ((processDataset loader runner skipExisting outputExists baselines d).1 ++
             (runMatrix loader runner skipExisting outputExists baselines rest).1,
           (processDataset loader runner skipExisting outputExists baselines d).2 ++
             (runMatrix loader runner skipExisting outputExists baselines rest).2)
    ∧ ∀ cells : List MatrixCell,
        matrixExitCode cells ≠ 0 ↔ ∃ c ∈ cells, c.status = "error" := by
  refine ⟨?_, ?_, rfl, ?_⟩
  · unfold processDataset
    rw [h]
  · unfold processDataset
    rw [h]
  · intro cells
    unfold matrixExitCode
    split_ifs with hc
    · simp only [List.any_eq_true, decide_eq_true_eq] at hc
      exact ⟨fun _ => hc, fun _ => one_ne_zero⟩
    · simp only [List.any_eq_true, decide_eq_true_eq] at hc
      exact ⟨fun h0 => absurd rfl h0, fun hex => absurd hex hc⟩

/-- Closed-instance witness for `run_matrix_loader_error_cells`. -/
theorem run_matrix_loader_error_cells_witness :
    (processDataset (fun _ => Except.error "load failed")
        (fun _ _ _ => Except.ok "path") false (fun _ _ => false)
        ["openai_base", "mem0"] "corpus50").1
      = ["openai_base", "mem0"].map (fun b => ⟨"corpus50", b, "error"⟩)
    ∧ (processDataset (fun _ => Except.error "load failed")
        (fun _ _ _ => Except.ok "path") false (fun _ _ => false)
        ["openai_base", "mem0"] "corpus50").2 = []
    ∧ runMatrix (fun _ => Except.error "load failed")
        (fun _ _ _ => Except.ok "path") false (fun _ _ => false)
        ["openai_base", "mem0"] ("corpus50" :: ["tau2_airline"])
        = ((processDataset (fun _ => Except.error "load failed")
              (fun _ _ _ => Except.ok "path") false (fun _ _ => false)
              ["openai_base", "mem0"] "corpus50").1 ++
             (runMatrix (fun _ => Except.error "load failed")
               (fun _ _ _ => Except.ok "path") false (fun _ _ => false)
               ["openai_base", "mem0"] ["tau2_airline"]).1,
           (processDataset (fun _ => Except.error "load failed")
              (fun _ _ _ => Except.ok "path") false (fun _ _ => false)
              ["openai_base", "mem0"] "corpus50").2 ++
             (runMatrix (fun _ => Except.error "load failed")
               (fun _ _ _ => Except.ok "path") false (fun _ _ => false)
               ["openai_base", "mem0"] ["tau2_airline"]).2)
    ∧ ∀ cells : List MatrixCell,
        matrixExitCode cells ≠ 0 ↔ ∃ c ∈ cells, c.status = "error" :=
  run_matrix_loader_error_cells (fun _ => Except.error "load failed")
    (fun _ _ _ => Except.ok "path") false (fun _ _ => false)
    ["openai_base", "mem0"] "corpus50" ["tau2_airline"] "load failed" rfl

/-- C9: `_percentile` returns the linear-interpolation percentile of the
sorted list — with rank `r = clamp(p, 0, 1) * (n - 1)` it equals
`sorted[floor r] + (r - floor r) * (sorted[ceil r] - sorted[floor r])` for
every nonempty list; the empty list yields 0 and a singleton yields its sole
element. -/
theorem percentile_linear_interpolation :
    (∀ (values : List Rat) (p : Rat), values ≠ [] →
        percentile values p = percentileSpecFormula values p)
    ∧ (∀ p : Rat, percentile [] p = 0)
    ∧ (∀ (x : Rat) (p : Rat), percentile [x] p = x) := by
  refine ⟨?_, fun p => rfl, fun x p => rfl⟩
  intro values p hne
  unfold percentile percentileSpecFormula
  rw [if_neg hne]
  by_cases h1 : (sortLe ratLeB values).length = 1
  · rw [if_pos h1]
    have hr : percRank values p = 0 := by
      unfold percRank
      rw [h1]
      norm_num
    rw [hr]
    norm_num
  · rw [if_neg h1]
    have hlen1 : 1 ≤ (sortLe ratLeB values).length := by
      rw [sortLe_length]
      exact List.length_pos.mpr hne
    have hrnn : 0 ≤ percRank values p := by
      unfold percRank
      apply mul_nonneg (le_max_left _ _)
      have hc : (1 : Rat) ≤ ((sortLe ratLeB values).length : Rat) := by exact_mod_cast hlen1
      linarith
    have hfl : (0 : Int) ≤ ⌊percRank values p⌋ := Int.floor_nonneg.mpr hrnn
    have hcl : (0 : Int) ≤ ⌈percRank values p⌉ :=
      le_trans hfl (Int.floor_le_ceil _)
    by_cases h2 : (⌊percRank values p⌋).toNat = (⌈percRank values p⌉).toNat
    · rw [if_pos h2]
      have heq : ⌊percRank values p⌋ = ⌈percRank values p⌉ := by omega
      have hint : ((⌊percRank values p⌋ : Int) : Rat) = percRank values p := by
        refine le_antisymm (Int.floor_le _) ?_
        rw [heq]
        exact Int.le_ceil _
      rw [← h2, hint]
      ring
    · rw [if_neg h2]
      have hc : ((⌊percRank values p⌋).toNat : Rat) = ((⌊percRank values p⌋ : Int) : Rat) := by
        exact_mod_cast congrArg (fun z : Int => (z : Rat)) (Int.toNat_of_nonneg hfl)
      rw [hc]
      ring

/-- Closed-instance witness for `percentile_linear_interpolation`. -/
theorem percentile_linear_interpolation_witness :
    ([(3 : Rat), 1, 2] ≠ [] ∧
      percentile [3, 1, 2] (1 / 2) = percentileSpecFormula [3, 1, 2] (1 / 2)) :=
  ⟨by decide, percentile_linear_interpolation.1 [3, 1, 2] (1 / 2) (by decide)⟩
